import Mathlib

/-!
Verification of the trading-framework core against its specification.

This file gives a shallow embedding, in Lean 4, of the parts of the
repository that the checked claims are about:

* `TradeLogger._calculate_profit_pips` and `TradeSyncService._calculate_pips`
  (pip-profit computation, src/data/trade_logger.py, src/data/trade_sync_service.py);
* the SQLite trade store (`TradeRepository.save_trade`, `update_trade`,
  `get_trade_by_ticket`, `get_bot_stats`, src/data/repositories/trade_repository.py);
* `TradeLogger.log_trade_closed` and `log_trade_opened` (src/data/trade_logger.py);
* the sync service (`TradeSyncService._group_deals_by_position`,
  `_process_position`, `_create_trade_from_deals`, `_update_trade_from_exit`,
  src/data/trade_sync_service.py);
* the per-iteration worker flow `SimpleTradingDirector.run_strategy`
  (src/trading_director/simple_trading_director.py) together with the
  event-emission helpers of src/events/event_bus.py, modelled as the trace
  of store operations and published events an iteration produces;
* the controller registry transitions and `AppDirector._check_global_pause`
  (src/trading_director/app_director.py).

Python floats are idealised as rationals; Python `round` is modelled as
round-half-to-even on rationals; SQLite rows are lists in rowid order.
-/

/-! ### Basic utilities: Python `round`, substring search, lowercasing -/

/-- Rational idealisation of Python `round(x, d)`: round half to even at `d`
decimal places. -/
def py_round (d : ℕ) (x : ℚ) : ℚ :=
  let m : ℚ := 10 ^ d
  let y := x * m
  let n : ℤ := ⌊y⌋
  let f : ℚ := y - n
  let r : ℤ := if f < 1/2 then n else if 1/2 < f then n + 1 else if n % 2 = 0 then n else n + 1
  (r : ℚ) / m

/-- Does `l` start with `pat`? (Helper for Python's `pat in s` substring test.) -/
def starts_with_chars : List Char → List Char → Bool
  | _, [] => true
  | [], _ :: _ => false
  | c :: cs, p :: ps => c == p && starts_with_chars cs ps

/-- Python's `pat in s` on character lists: `pat` occurs contiguously in `l`. -/
def contains_chars : List Char → List Char → Bool
  | [], pat => starts_with_chars [] pat
  | c :: cs, pat => starts_with_chars (c :: cs) pat || contains_chars cs pat

/-- Python's `pat in s` for strings (case-sensitive, as in `"JPY" in symbol`). -/
def str_contains (s pat : String) : Bool := contains_chars s.toList pat.toList

/-- Python's `s.lower()`, as a character list. -/
def to_lower_str (s : String) : List Char := s.toList.map Char.toLower

/-- Python's `action.lower() == other`. -/
def lower_eq (a b : String) : Bool := to_lower_str a == b.toList

/-! ### Pip-profit computation

`TradeLogger._calculate_profit_pips` (src/data/trade_logger.py 193-214) and
`TradeSyncService._calculate_pips` (src/data/trade_sync_service.py 293-311)
share the same pip-size classification and direction formula; the sync-service
variant additionally returns 0 when entry or exit price is falsy (0.0). -/

/-- Pip size chosen from the symbol name: `"JPY" in symbol` first, then
`"XAU" in symbol or "GOLD" in symbol`, else the FX default. -/
def pip_size_for (symbol : String) : ℚ :=
  if str_contains symbol "JPY" then 1/100
  else if str_contains symbol "XAU" || str_contains symbol "GOLD" then 1/10
  else 1/10000

/-- The pip quotient before Python's `round(pips, 1)`:
`(exit - entry) / pip_size` for `action.lower() == "buy"`, else
`(entry - exit) / pip_size`. -/
def raw_pips (symbol action : String) (entry exitp : ℚ) : ℚ :=
  if lower_eq action "buy" then (exitp - entry) / pip_size_for symbol
  else (entry - exitp) / pip_size_for symbol

/-- `TradeLogger._calculate_profit_pips`: the pip quotient rounded to one
decimal place. -/
def calculate_profit_pips (symbol action : String) (entry exitp : ℚ) : ℚ :=
  py_round 1 (raw_pips symbol action entry exitp)

/-- `TradeSyncService._calculate_pips`: same computation, but with the guard
`if not entry or not exit: return 0.0`. -/
def calculate_pips (symbol action : String) (entry exitp : ℚ) : ℚ :=
  if entry = 0 ∨ exitp = 0 then 0
  else py_round 1 (raw_pips symbol action entry exitp)

/-! ### The trade store

One row of the `trades` table (src/data/repositories/trade_repository.py).
`id = 0` stands for a Python `Trade` whose `id` is `None` (or 0): rows that
live in the store always carry the rowid SQLite assigned, starting at 1.
Timestamps are natural numbers. -/

inductive TradeStatus
  | opened
  | closed
  | cancelled
  | error
deriving DecidableEq

structure TradeRow where
  id : ℕ
  ticket : ℕ
  magic_number : ℕ
  bot_id : String
  strategy_name : String
  symbol : String
  action : String
  volume : ℚ
  entry_price : ℚ
  exit_price : Option ℚ
  sl_price : Option ℚ
  tp_price : Option ℚ
  profit : Option ℚ
  profit_pips : Option ℚ
  commission : Option ℚ
  swap : Option ℚ
  opened_at : Option ℕ
  closed_at : Option ℕ
  status : TradeStatus
  close_reason : Option String
  signal_data : Option String
  market_context : Option String
deriving DecidableEq

/-- The `trades` table of one per-account database: rows in rowid order,
plus the next AUTOINCREMENT id. -/
structure Store where
  rows : List TradeRow
  nextId : ℕ
deriving DecidableEq

/-- `TradeRepository.save_trade`: a plain `INSERT` (no uniqueness constraint
on `ticket`); returns the assigned rowid. -/
def save_trade (s : Store) (t : TradeRow) : Store × ℕ :=
  ({ rows := s.rows ++ [{ t with id := s.nextId }], nextId := s.nextId + 1 }, s.nextId)

/-- The column set written by both `UPDATE` statements of
`TradeRepository.update_trade`. -/
def overwrite_from (t r : TradeRow) : TradeRow :=
  { r with
    exit_price := t.exit_price
    profit := t.profit
    profit_pips := t.profit_pips
    commission := t.commission
    swap := t.swap
    closed_at := t.closed_at
    status := t.status
    close_reason := t.close_reason }

/-- `TradeRepository.update_trade`: `if trade.id:` update `WHERE id = ?`
(no status guard); `elif trade.ticket:` update
`WHERE ticket = ? AND status = 'opened'`; else no statement runs and
`rowcount > 0` is false. -/
def update_trade (s : Store) (t : TradeRow) : Store × Bool :=
  if t.id ≠ 0 then
    ({ s with rows := s.rows.map fun r => if r.id = t.id then overwrite_from t r else r },
      s.rows.any fun r => decide (r.id = t.id))
  else if t.ticket ≠ 0 then
    ({ s with rows := s.rows.map fun r =>
        if r.ticket = t.ticket ∧ r.status = .opened then overwrite_from t r else r },
      s.rows.any fun r => decide (r.ticket = t.ticket ∧ r.status = .opened))
  else (s, false)

/-- `TradeRepository.get_trade_by_ticket`: `SELECT * FROM trades WHERE ticket = ?`
with `fetchone()` — the first matching row in rowid order, with no filter on
status. -/
def get_trade_by_ticket (s : Store) (ticket : ℕ) : Option TradeRow :=
  s.rows.find? fun r => decide (r.ticket = ticket)

/-! ### Trade Logger -/

/-- `TradeLogger.log_trade_opened`: build a `Trade` with `status=OPENED` and
insert it; returns the updated store and the new row's id. -/
def log_trade_opened (s : Store) (ticket magic_number : ℕ)
    (bot_id strategy_name symbol action : String) (volume entry_price : ℚ)
    (sl_price tp_price : Option ℚ) (now : ℕ) : Store × ℕ :=
  save_trade s
    { id := 0
      ticket := ticket
      magic_number := magic_number
      bot_id := bot_id
      strategy_name := strategy_name
      symbol := symbol
      action := action
      volume := volume
      entry_price := entry_price
      exit_price := none
      sl_price := sl_price
      tp_price := tp_price
      profit := none
      profit_pips := none
      commission := none
      swap := none
      opened_at := some now
      closed_at := none
      status := .opened
      close_reason := none
      signal_data := none
      market_context := none }

/-- `TradeLogger.log_trade_closed`: fetch by ticket (any status); if absent,
return false and leave the store unchanged; otherwise stamp the close fields
and call `update_trade` (which, the fetched row having a rowid, updates
`WHERE id = ?`). -/
def log_trade_closed (s : Store) (ticket : ℕ) (exit_price profit : ℚ)
    (close_reason : String) (commission swap : ℚ) (now : ℕ) : Store × Bool :=
  match get_trade_by_ticket s ticket with
  | none => (s, false)
  | some trade =>
      let profit_pips := calculate_profit_pips trade.symbol trade.action trade.entry_price exit_price
      update_trade s
        { trade with
          exit_price := some exit_price
          profit := some profit
          profit_pips := some profit_pips
          commission := some commission
          swap := some swap
          closed_at := some now
          status := .closed
          close_reason := some close_reason }

/-! ### Per-bot aggregate statistics (`TradeRepository.get_bot_stats`) -/

structure BotStats where
  total_trades : ℕ
  closed_trades : ℕ
  open_trades : ℕ
  wins : ℕ
  losses : ℕ
  win_rate : ℚ
  total_profit : ℚ
  avg_profit : ℚ
deriving DecidableEq

/-- SQL `profit > 0` (NULL compares false). -/
def profit_pos (r : TradeRow) : Bool :=
  match r.profit with
  | some p => decide (0 < p)
  | none => false

/-- SQL `profit < 0` (NULL compares false). -/
def profit_neg (r : TradeRow) : Bool :=
  match r.profit with
  | some p => decide (p < 0)
  | none => false

/-- `TradeRepository.get_bot_stats`: `closed_trades = wins + losses`,
`open_trades = total - closed_trades`; SUM/AVG range over closed rows with
non-NULL profit, COALESCEd to 0. -/
def get_bot_stats (s : Store) (bot_id : String) : BotStats :=
  let total := s.rows.countP fun r => decide (r.bot_id = bot_id)
  let wins := s.rows.countP fun r => decide (r.bot_id = bot_id) &&
    decide (r.status = .closed) && profit_pos r
  let losses := s.rows.countP fun r => decide (r.bot_id = bot_id) &&
    decide (r.status = .closed) && profit_neg r
  let closedProfits := (s.rows.filter fun r => decide (r.bot_id = bot_id) &&
    decide (r.status = .closed)).filterMap fun r => r.profit
  let closed_trades := wins + losses
  { total_trades := total
    closed_trades := closed_trades
    open_trades := total - closed_trades
    wins := wins
    losses := losses
    win_rate := if 0 < closed_trades then
        py_round 2 ((wins : ℚ) / (closed_trades : ℚ) * 100) else 0
    total_profit := py_round 2 closedProfits.sum
    avg_profit := py_round 2 (if closedProfits.length = 0 then 0
        else closedProfits.sum / (closedProfits.length : ℚ)) }

/-! ### Trade Sync Service (src/data/trade_sync_service.py) -/

/-- One broker history deal, the fields of `deal._asdict()` used by the sync
service. `dealType` is MT5's `type` (0 = buy, 1 = sell). -/
structure Deal where
  positionId : ℕ
  order : ℕ
  time : ℕ
  price : ℚ
  volume : ℚ
  dealType : ℕ
  profit : ℚ
  commission : ℚ
  swap : ℚ
  magic : ℕ
  comment : String
  symbol : String
deriving DecidableEq

/-- The `MAGIC_TO_STRATEGY` table, with the `Unknown_M<magic>` fallback. -/
def magic_to_strategy (magic : ℕ) : String :=
  if magic = 1 then "SimpleTimeStrategy"
  else if magic = 2 then "SimpleTimeStrategyGBP"
  else if magic = 3 then "SimpleTimeStrategyXAU"
  else "Unknown_M" ++ toString magic

/-- Close-reason classification of `_update_trade_from_exit` /
`_create_trade_from_deals`: lowercase the deal comment, then
`'[tp' in c` ⇒ `tp`, `elif '[sl' in c` ⇒ `sl`, else `synced`. -/
def close_reason_from_comment (comment : String) : String :=
  let c := to_lower_str comment
  if contains_chars c "[tp".toList then "tp"
  else if contains_chars c "[sl".toList then "sl"
  else "synced"

/-- `sorted(deals, key=lambda d: d.get('time', 0))`. -/
def sort_deals_by_time (deals : List Deal) : List Deal :=
  List.insertionSort (fun a b => a.time ≤ b.time) deals

/-- The entry deal of `_process_position`: the first deal after sorting by
time. -/
def entry_of (deals : List Deal) : Option Deal :=
  (sort_deals_by_time deals).head?

/-- The exit deal of `_process_position`: the last deal after sorting by
time when there is more than one deal, else `None`. -/
def exit_of (deals : List Deal) : Option Deal :=
  if 1 < (sort_deals_by_time deals).length then (sort_deals_by_time deals).getLast?
  else none

/-- The `Trade` built by `_create_trade_from_deals` (before insertion).
Python truthiness is kept: `profit_pips` is `None` when the exit price is
falsy, `closed_at` is `None` when the exit time is falsy. -/
def trade_from_deals (entry : Deal) (exitDeal : Option Deal) : TradeRow :=
  { id := 0
    ticket := entry.order
    magic_number := entry.magic
    bot_id := "Synced_" ++ entry.symbol ++ "_M" ++ toString entry.magic
    strategy_name := magic_to_strategy entry.magic
    symbol := entry.symbol
    action := if entry.dealType = 0 then "buy" else "sell"
    volume := entry.volume
    entry_price := entry.price
    exit_price := exitDeal.map fun ed => ed.price
    sl_price := none
    tp_price := none
    profit := some (match exitDeal with | some ed => ed.profit | none => 0)
    profit_pips := match exitDeal with
      | some ed =>
          if ed.price = 0 then none
          else some (calculate_pips entry.symbol
            (if entry.dealType = 0 then "buy" else "sell") entry.price ed.price)
      | none => none
    commission := some (entry.commission + (match exitDeal with | some ed => ed.commission | none => 0))
    swap := some (entry.swap + (match exitDeal with | some ed => ed.swap | none => 0))
    opened_at := some entry.time
    closed_at := match exitDeal with
      | some ed => if ed.time = 0 then none else some ed.time
      | none => none
    status := if exitDeal.isSome then .closed else .opened
    close_reason := exitDeal.map fun ed => close_reason_from_comment ed.comment
    signal_data := none
    market_context := none }

inductive SyncResult
  | isNew
  | updated
  | skip
deriving DecidableEq

/-- `_create_trade_from_deals`: build and `save_trade`, reporting `new`. -/
def create_trade_from_deals (s : Store) (entry : Deal) (exitDeal : Option Deal) :
    Store × SyncResult :=
  ((save_trade s (trade_from_deals entry exitDeal)).1, .isNew)

/-- The close-field mutation `_update_trade_from_exit` performs on the
fetched trade before persisting it. -/
def closed_row_from_exit (tr : TradeRow) (ed : Deal) : TradeRow :=
  { tr with
    exit_price := some ed.price
    profit := some ed.profit
    profit_pips := some (calculate_pips tr.symbol tr.action tr.entry_price ed.price)
    commission := some (tr.commission.getD 0 + ed.commission)
    swap := some (tr.swap.getD 0 + ed.swap)
    closed_at := some ed.time
    status := .closed
    close_reason := some (close_reason_from_comment ed.comment) }

/-- `_update_trade_from_exit`: mutate the fetched trade and `update_trade`,
reporting `updated`. -/
def update_trade_from_exit (s : Store) (tr : TradeRow) (ed : Deal) :
    Store × SyncResult :=
  ((update_trade s (closed_row_from_exit tr ed)).1, .updated)

/-- `_process_position`: sort the group, take entry/exit deals, look the
ticket (the entry deal's order id) up in the store; update when the stored
trade is still opened and an exit deal exists, skip otherwise; create a new
trade when the ticket is unknown. -/
def process_position (s : Store) (deals : List Deal) : Store × SyncResult :=
  if deals = [] then (s, .skip)
  else
    match entry_of deals with
    | none => (s, .skip)
    | some entry =>
        match get_trade_by_ticket s entry.order, exit_of deals with
        | some tr, some ed =>
            if tr.status = .opened then update_trade_from_exit s tr ed else (s, .skip)
        | some _, none => (s, .skip)
        | none, exitDeal => create_trade_from_deals s entry exitDeal

/-- `_group_deals_by_position`: group deals by `position_id` in first-seen
order (Python dict insertion order), skipping `position_id == 0`. -/
def add_to_group : List (ℕ × List Deal) → Deal → List (ℕ × List Deal)
  | [], d => [(d.positionId, [d])]
  | (p, l) :: rest, d =>
      if p = d.positionId then (p, l ++ [d]) :: rest
      else (p, l) :: add_to_group rest d

def group_deals_by_position (ds : List Deal) : List (ℕ × List Deal) :=
  ds.foldl (fun acc d => if d.positionId = 0 then acc else add_to_group acc d) []

/-- One `_sync_with_mt5` pass over the grouped positions (the store-state
part; the new/updated counters do not feed back into the store). -/
def sync_run (s : Store) (groups : List (ℕ × List Deal)) : Store :=
  groups.foldl (fun st g => (process_position st g.2).1) s

/-- `TradeSyncService.__init__`: `sync_interval = sync_interval_minutes * 60`. -/
def sync_interval_seconds (sync_interval_minutes : ℕ) : ℕ :=
  sync_interval_minutes * 60

/-- The default of the `sync_interval_minutes` parameter of
`TradeSyncService.__init__` (src/data/trade_sync_service.py line 34). -/
def default_sync_interval_minutes : ℕ := 30

/-- The default of the `sync_interval_minutes` parameter of
`AppDirector.__init__` (src/trading_director/app_director.py line 83), which
it passes on to the `TradeSyncService` it constructs. -/
def app_director_sync_interval_minutes : ℕ := 10

/-! ### Worker iteration trace (`SimpleTradingDirector.run_strategy`)

One iteration of the worker's trade flow, modelled as the sequence of store
operations and bus events it performs, in program order. The event helpers
`on_signal_generated` / `on_trade_opened` (src/events/event_bus.py) publish
nothing while `global_state.should_skip_action("event")` reports the
global pause. -/

inductive TraceStep
  | signalEvent (bot_id strategy_name symbol signalType : String) (price : ℚ)
  | closeLogged (ticket : ℕ)
  | openLogged (ticket : ℕ)
  | openEvent (ticket : ℕ)
deriving DecidableEq

/-- The inputs one `run_strategy` call reads from its collaborators. -/
structure RunInputs where
  hasData : Bool
  signal : String
  price : ℚ
  bot_id : String
  strategy_name : String
  symbol : String
  marketOpen : Bool
  closeBeforeOpen : Bool
  maxOpenPositions : ℕ
  positions : List (ℕ × Bool)
  submitOk : Bool
  orderTicket : ℕ
  globallyPaused : Bool
  hasLogger : Bool
deriving DecidableEq

/-- `SimpleTradingDirector.close_existing_positions`: each position whose
close order returns the done retcode is logged into the store (when a
logger is configured). -/
def close_existing_trace (inp : RunInputs) : List TraceStep :=
  inp.positions.filterMap fun p =>
    if p.2 && inp.hasLogger then some (.closeLogged p.1) else none

/-- `SimpleTradingDirector.run_strategy`, as the trace of store writes and
published events of one iteration. Mirrors the source order: empty-data
early return; early return for signals other than buy/sell (before any
event); signal event; market re-check; position policy (close-before-open
or max-positions cap); order submit; on success, `log_trade_opened` then the
`trade_opened` event. -/
def run_strategy_trace (inp : RunInputs) : List TraceStep :=
  if !inp.hasData then []
  else if !(inp.signal == "buy" || inp.signal == "sell") then []
  else
    let sigEv : List TraceStep :=
      if inp.globallyPaused then []
      else [.signalEvent inp.bot_id inp.strategy_name inp.symbol inp.signal inp.price]
    if !inp.marketOpen then sigEv
    else
      let submitEvs : List TraceStep :=
        if inp.submitOk then
          (if inp.hasLogger then [.openLogged inp.orderTicket] else [])
            ++ (if inp.globallyPaused then [] else [.openEvent inp.orderTicket])
        else []
      if inp.closeBeforeOpen then
        sigEv ++ (if 0 < inp.positions.length then close_existing_trace inp else [])
          ++ submitEvs
      else if inp.maxOpenPositions ≤ inp.positions.length then sigEv
      else sigEv ++ submitEvs

/-! ### Controller registry and the global-pause flag
(src/trading_director/app_director.py) -/

inductive BotStatus
  | starting
  | running
  | waitingMarket
  | paused
  | stopped
deriving DecidableEq

/-- The controller state the claims are about: `active_bots` statuses in
insertion order, and the derived `global_paused` flag. -/
structure CtrlState where
  bots : List (String × BotStatus)
  global_paused : Bool
deriving DecidableEq

def lookup_status (bots : List (String × BotStatus)) (id : String) : Option BotStatus :=
  (bots.find? fun b => decide (b.1 = id)).map fun b => b.2

def set_status (bots : List (String × BotStatus)) (id : String) (st : BotStatus) :
    List (String × BotStatus) :=
  bots.map fun b => if b.1 = id then (b.1, st) else b

/-- The `all_paused` expression of `AppDirector._check_global_pause`:
every bot whose status is not `stopped` has status `paused`, and at least
one bot is registered. -/
def all_paused_calc (bots : List (String × BotStatus)) : Bool :=
  (bots.all fun b => if b.2 = .stopped then true else decide (b.2 = .paused))
    && decide (0 < bots.length)

/-- `AppDirector._check_global_pause`: flip `global_paused` to follow
`all_paused`. -/
def check_global_pause (s : CtrlState) : CtrlState :=
  let ap := all_paused_calc s.bots
  if ap = true ∧ s.global_paused = false then { s with global_paused := true }
  else if ap = false ∧ s.global_paused = true then { s with global_paused := false }
  else s

/-- `AppDirector.pause_bot`: missing bot or already paused returns without
recomputing the flag; otherwise set `paused` and recompute. -/
def pause_bot (s : CtrlState) (id : String) : CtrlState :=
  match lookup_status s.bots id with
  | none => s
  | some st =>
      if st = .paused then s
      else check_global_pause { s with bots := set_status s.bots id .paused }

/-- `AppDirector.resume_bot`: only a paused bot is resumed (to `running`),
then the flag is recomputed. -/
def resume_bot (s : CtrlState) (id : String) : CtrlState :=
  match lookup_status s.bots id with
  | none => s
  | some st =>
      if st ≠ .paused then s
      else check_global_pause { s with bots := set_status s.bots id .running }

/-- `AppDirector.stop_bot`: mark `stopped`, then recompute the flag. -/
def stop_bot (s : CtrlState) (id : String) : CtrlState :=
  match lookup_status s.bots id with
  | none => s
  | some _ => check_global_pause { s with bots := set_status s.bots id .stopped }

/-- `AppDirector.add_bot`: reject duplicate ids, otherwise register the bot
with status `starting`. The flag is NOT recomputed. -/
def add_bot (s : CtrlState) (id : String) : CtrlState :=
  if (lookup_status s.bots id).isSome then s
  else { s with bots := s.bots ++ [(id, .starting)] }

/-- `AppDirector.restart_bot`: `stop_bot` (which recomputes the flag), then
the status is reset to `starting` with no further recomputation. -/
def restart_bot (s : CtrlState) (id : String) : CtrlState :=
  match lookup_status s.bots id with
  | none => s
  | some _ =>
      let s1 := stop_bot s id
      { s1 with bots := set_status s1.bots id .starting }

/-! ### Derived predicates and concrete instances used by the theorems -/

/-- Recogniser for `signal_generated` publications in a worker trace. -/
def is_signal_event : TraceStep → Bool
  | .signalEvent _ _ _ _ _ => true
  | _ => false

/-- Every `trade_opened` publication in the trace is preceded by the insertion
of a trade row carrying the same ticket. -/
def insert_precedes_open (tr : List TraceStep) : Prop :=
  ∀ (i : ℕ) (t : ℕ), tr[i]? = some (TraceStep.openEvent t) →
    ∃ j : ℕ, j < i ∧ tr[j]? = some (TraceStep.openLogged t)

/-- At most one opened row per ticket: any two distinct rows that are both
`opened` carry different tickets. -/
def opened_unique (s : Store) : Prop :=
  s.rows.Pairwise fun a b => a.status = .opened → b.status = .opened → a.ticket ≠ b.ticket

/-- The claimed global-pause characterisation: the flag is set iff at least
one bot is registered and every non-stopped bot is paused. -/
def pause_claim_iff (s : CtrlState) : Prop :=
  s.global_paused = true ↔
    (s.bots ≠ [] ∧ ∀ b ∈ s.bots, b.2 ≠ BotStatus.stopped → b.2 = BotStatus.paused)

/-- A map on rows that keeps id and ticket and can only move a row's status
to `closed` (the shape of every `UPDATE` the sync service issues). -/
def RowTransform (f : TradeRow → TradeRow) : Prop :=
  ∀ r, (f r).id = r.id ∧ (f r).ticket = r.ticket ∧ (f r = r ∨ (f r).status = .closed)

/-- A deal group is inert in a store: processing it cannot change the store
— either the group is empty, or its ticket resolves to a row that is not
(opened with a pending exit deal), or the resolved row can only be addressed
by a no-op `UPDATE` (both its id and the ticket are falsy). -/
def InertG (s : Store) (deals : List Deal) : Prop :=
  deals = [] ∨
    ∃ e, entry_of deals = some e ∧
      ∃ r, get_trade_by_ticket s e.order = some r ∧
        (¬(r.status = .opened ∧ (exit_of deals).isSome) ∨ (r.id = 0 ∧ r.ticket = 0))

/-- A neutral trade row used to build concrete instances. -/
def base_row : TradeRow :=
  { id := 0
    ticket := 0
    magic_number := 0
    bot_id := "bot"
    strategy_name := "Strat"
    symbol := "EURUSD"
    action := "buy"
    volume := 1
    entry_price := 1
    exit_price := none
    sl_price := none
    tp_price := none
    profit := none
    profit_pips := none
    commission := none
    swap := none
    opened_at := some 10
    closed_at := none
    status := .opened
    close_reason := none
    signal_data := none
    market_context := none }

/-- A store holding a single already-closed trade with ticket 5. -/
def c2_store : Store :=
  { rows := [{ base_row with
      id := 1
      ticket := 5
      status := .closed
      exit_price := some 2
      profit := some 1
      close_reason := some "tp"
      closed_at := some 20 }]
    nextId := 2 }

/-- A worker iteration whose strategy returned `hold`. -/
def c1_hold_inp : RunInputs :=
  { hasData := true
    signal := "hold"
    price := 1
    bot_id := "bot"
    strategy_name := "Strat"
    symbol := "EURUSD"
    marketOpen := true
    closeBeforeOpen := false
    maxOpenPositions := 1
    positions := []
    submitOk := true
    orderTicket := 11
    globallyPaused := false
    hasLogger := true }

/-- A worker iteration whose strategy returned `buy` and whose order went
through. -/
def c1_buy_inp : RunInputs :=
  { c1_hold_inp with signal := "buy" }

/-- A worker iteration for the C5 witness: buy signal, close-before-open
policy with one prior position, successful submit. -/
def c5_inp : RunInputs :=
  { c1_hold_inp with
    signal := "buy"
    closeBeforeOpen := true
    positions := [(3, true)]
    orderTicket := 12 }

/-- The controller state reached by add "A"; pause "A"; add "B". -/
def c6_state : CtrlState :=
  add_bot (pause_bot (add_bot { bots := [], global_paused := false } "A") "A") "B"

/-- Two history deals of one position: entry at time 100, exit at time 200. -/
def c3_d1 : Deal :=
  { positionId := 42
    order := 7
    time := 100
    price := 1
    volume := 1
    dealType := 0
    profit := 0
    commission := 0
    swap := 0
    magic := 1
    comment := ""
    symbol := "EURUSD" }

def c3_d2 : Deal :=
  { c3_d1 with time := 200, dealType := 1, comment := "x [TP hit" }

/-! ### Shared helper lemmas -/

lemma countP_split (l : List TradeRow) (p q : TradeRow → Bool) :
    l.countP p = l.countP (fun a => p a && q a) + l.countP (fun a => p a && !q a) := by
  induction l with
  | nil => rfl
  | cons a t ih =>
      simp only [List.countP_cons, ih]
      cases hp : p a <;> cases hq : q a <;> simp [hp, hq] <;> omega

lemma countP_congr_rows (l : List TradeRow) (p q : TradeRow → Bool)
    (h : ∀ a ∈ l, p a = q a) : l.countP p = l.countP q := by
  induction l with
  | nil => rfl
  | cons a t ih =>
      simp only [List.countP_cons, h a (List.mem_cons_self a t),
        ih fun b hb => h b (List.mem_cons_of_mem a hb)]

lemma pip_size_pos (s : String) : 0 < pip_size_for s := by
  unfold pip_size_for
  split
  · norm_num
  · split <;> norm_num

/-! ### C9 — default sync interval -/

/-- C9 (counterexample): constructed without an explicit interval, the
Trade Sync Service sleeps 1800 seconds (30 minutes) between cycles, not the
600 seconds (10 minutes) the claim states. -/
theorem sync_interval_default_not_ten_minutes :
    sync_interval_seconds default_sync_interval_minutes = 1800 ∧
    sync_interval_seconds default_sync_interval_minutes ≠ 600 := by
  decide

/-- C9 (amended): the `TradeSyncService.__init__` default interval is 30
minutes (1800 seconds); the 10-minute (600-second) interval is the default
`AppDirector.__init__` passes when it constructs the service. -/
theorem sync_interval_defaults :
    sync_interval_seconds default_sync_interval_minutes = 1800 ∧
    sync_interval_seconds app_director_sync_interval_minutes = 600 := by
  decide

/-! ### C10 — zero-profit closed trades in the per-bot statistics -/

/-- C10: in `get_bot_stats`, `closed_trades` is `wins + losses` with
`wins` requiring `profit > 0` and `losses` requiring `profit < 0`, so
`total_trades` counts every row of the bot while `open_trades`
(`total - wins - losses`) counts, besides the genuinely non-closed rows,
every closed row whose profit is neither positive nor negative — in
particular every closed row with profit exactly 0. -/
theorem get_bot_stats_zero_profit_accounting (s : Store) (b : String) :
    (get_bot_stats s b).total_trades = (s.rows.countP fun r => decide (r.bot_id = b)) ∧
    (get_bot_stats s b).wins = (s.rows.countP fun r =>
      decide (r.bot_id = b) && decide (r.status = .closed) && profit_pos r) ∧
    (get_bot_stats s b).losses = (s.rows.countP fun r =>
      decide (r.bot_id = b) && decide (r.status = .closed) && profit_neg r) ∧
    (get_bot_stats s b).closed_trades = (get_bot_stats s b).wins + (get_bot_stats s b).losses ∧
    (get_bot_stats s b).open_trades
      = (s.rows.countP fun r => decide (r.bot_id = b) && !decide (r.status = .closed))
        + (s.rows.countP fun r => decide (r.bot_id = b) && decide (r.status = .closed)
            && !profit_pos r && !profit_neg r) ∧
    (s.rows.countP fun r => decide (r.bot_id = b) && decide (r.status = .closed)
        && decide (r.profit = some 0))
      ≤ (s.rows.countP fun r => decide (r.bot_id = b) && decide (r.status = .closed)
          && !profit_pos r && !profit_neg r) := by
  refine ⟨rfl, rfl, rfl, rfl, ?_, ?_⟩
  · show (s.rows.countP fun r => decide (r.bot_id = b))
        - ((s.rows.countP fun r => decide (r.bot_id = b) && decide (r.status = .closed) && profit_pos r)
          + (s.rows.countP fun r => decide (r.bot_id = b) && decide (r.status = .closed) && profit_neg r))
      = _
    have h1 := countP_split s.rows (fun r => decide (r.bot_id = b)) (fun r => decide (r.status = .closed))
    have h2 := countP_split s.rows
      (fun r => decide (r.bot_id = b) && decide (r.status = .closed)) profit_pos
    have h3 := countP_split s.rows
      (fun r => decide (r.bot_id = b) && decide (r.status = .closed) && !profit_pos r) profit_neg
    have h4 : (s.rows.countP fun r =>
        decide (r.bot_id = b) && decide (r.status = .closed) && profit_neg r)
      = (s.rows.countP fun r =>
        decide (r.bot_id = b) && decide (r.status = .closed) && !profit_pos r && profit_neg r) := by
      apply countP_congr_rows
      intro a _
      cases hb : decide (a.bot_id = b) <;> cases hc : decide (a.status = .closed) <;>
        simp [hb, hc]
      intro hneg
      unfold profit_neg at hneg
      unfold profit_pos
      cases hpf : a.profit with
      | none => simp [hpf] at hneg
      | some p =>
          simp [hpf] at hneg ⊢
          linarith
    omega
  · apply List.countP_mono_left
    intro r _ h
    simp only [Bool.and_eq_true, decide_eq_true_eq] at h
    obtain ⟨⟨hb, hc⟩, hz⟩ := h
    simp only [Bool.and_eq_true, Bool.not_eq_true', decide_eq_true_eq]
    refine ⟨⟨⟨by simp [hb], by simp [hc]⟩, ?_⟩, ?_⟩
    · unfold profit_pos
      rw [hz]
      simp
    · unfold profit_neg
      rw [hz]
      simp

/-! ### C4 — pip-profit computation -/

/-- C4 (counterexample): for a buy on EURUSD with entry 1 and exit
1 + 1/250000 the price moved in the trade's favor, yet the computed pip
profit is 0 (Python rounds the 0.04-pip quotient to one decimal place), so
the result is not positive exactly when the move is favorable. -/
theorem profit_pips_favorable_but_zero :
    lower_eq "buy" "buy" = true ∧ (1 : ℚ) < 1 + 1/250000 ∧
    ¬ (0 < calculate_profit_pips "EURUSD" "buy" 1 (1 + 1/250000)) := by
  refine ⟨by decide, by norm_num, ?_⟩
  have hps : pip_size_for "EURUSD" = 1/10000 := by
    unfold pip_size_for
    rw [if_neg, if_neg]
    · decide
    · decide
  have hraw : raw_pips "EURUSD" "buy" 1 (1 + 1/250000) = 1/25 := by
    unfold raw_pips
    rw [if_pos (by decide), hps]
    norm_num
  have hfloor : ⌊(1/25 : ℚ) * 10 ^ 1⌋ = 0 := by
    norm_num
  unfold calculate_profit_pips py_round
  rw [hraw]
  simp only [hfloor]
  norm_num

/-- C4 (amended): pip profit is the pip quotient rounded to one decimal
place; the pip size is 0.01 for symbols containing `JPY`, else 0.1 for
symbols containing `XAU` or `GOLD`, else 0.0001; the quotient is
(exit − entry)/pip for buys and (entry − exit)/pip otherwise, and the
quotient BEFORE rounding is positive exactly when the price moved in the
trade's favor. The sync-service variant agrees with the logger's whenever
both prices are non-zero. -/
theorem profit_pips_pip_size_and_sign (s a : String) (e x : ℚ) :
    (str_contains s "JPY" = true → pip_size_for s = 1/100) ∧
    (str_contains s "JPY" = false →
      (str_contains s "XAU" = true ∨ str_contains s "GOLD" = true) →
      pip_size_for s = 1/10) ∧
    (str_contains s "JPY" = false → str_contains s "XAU" = false →
      str_contains s "GOLD" = false → pip_size_for s = 1/10000) ∧
    calculate_profit_pips s a e x = py_round 1 (raw_pips s a e x) ∧
    (lower_eq a "buy" = true → raw_pips s a e x = (x - e) / pip_size_for s) ∧
    (lower_eq a "buy" = false → raw_pips s a e x = (e - x) / pip_size_for s) ∧
    (0 < raw_pips s a e x ↔ (if lower_eq a "buy" then e < x else x < e)) ∧
    (e ≠ 0 → x ≠ 0 → calculate_pips s a e x = calculate_profit_pips s a e x) := by
  have hp := pip_size_pos s
  refine ⟨?_, ?_, ?_, rfl, ?_, ?_, ?_, ?_⟩
  · intro h
    unfold pip_size_for
    rw [if_pos h]
  · intro h1 h2
    unfold pip_size_for
    rw [if_neg (by simp [h1]), if_pos (by rcases h2 with h | h <;> simp [h])]
  · intro h1 h2 h3
    unfold pip_size_for
    rw [if_neg (by simp [h1]), if_neg (by simp [h2, h3])]
  · intro h
    unfold raw_pips
    rw [if_pos h]
  · intro h
    unfold raw_pips
    rw [if_neg (by simp [h])]
  · unfold raw_pips
    by_cases h : lower_eq a "buy" = true
    · rw [if_pos h, if_pos h, lt_div_iff₀ hp, zero_mul, sub_pos]
    · rw [if_neg h, if_neg (by simpa using h), lt_div_iff₀ hp, zero_mul, sub_pos]
  · intro he hx
    unfold calculate_pips calculate_profit_pips
    rw [if_neg (by simp [he, hx])]

/-- C4 (witness): the amended theorem applied to a JPY buy with entry 1 and
exit 2, and to the non-zero-price agreement of the two variants. -/
theorem profit_pips_pip_size_and_sign_witness :
    str_contains "USDJPY" "JPY" = true ∧ pip_size_for "USDJPY" = 1/100 ∧
    lower_eq "BUY" "buy" = true ∧
    raw_pips "USDJPY" "BUY" 1 2 = (2 - 1) / pip_size_for "USDJPY" ∧
    calculate_pips "USDJPY" "BUY" 1 2 = calculate_profit_pips "USDJPY" "BUY" 1 2 :=
  ⟨by decide,
   (profit_pips_pip_size_and_sign "USDJPY" "BUY" 1 2).1 (by decide),
   by decide,
   (profit_pips_pip_size_and_sign "USDJPY" "BUY" 1 2).2.2.2.2.1 (by decide),
   (profit_pips_pip_size_and_sign "USDJPY" "BUY" 1 2).2.2.2.2.2.2.2
     (by norm_num) (by norm_num)⟩

/-! ### C2 — closing a ticket with no opened row -/

/-- C2 (counterexample): `c2_store` holds one trade with ticket 5 that is
already closed (no opened row with that ticket exists), yet a second
`log_trade_closed` call for ticket 5 returns true and rewrites the row: the
lookup ignores status and the update runs `WHERE id = ?` with no status
guard. -/
theorem log_trade_closed_overwrites_closed_row :
    (c2_store.rows.map fun r => (r.status, r.close_reason)) = [(.closed, some "tp")] ∧
    (log_trade_closed c2_store 5 3 7 "manual" 0 0 99).2 = true ∧
    ((log_trade_closed c2_store 5 3 7 "manual" 0 0 99).1.rows.map
      fun r => (r.status, r.close_reason)) = [(.closed, some "manual")] := by
  exact ⟨rfl, rfl, rfl⟩

/-- C2 (amended): `log_trade_closed` returns false and leaves the store
unchanged exactly in the no-row case — when no row with the requested
ticket exists at all (whatever its status); when the ticket resolves to a
row (opened or not) with a rowid, the call updates by id and returns
true. -/
lemma update_trade_snd_true (s : Store) (t : TradeRow) (h : t.id ≠ 0)
    (r : TradeRow) (hr : r ∈ s.rows) (hid : r.id = t.id) :
    (update_trade s t).2 = true := by
  unfold update_trade
  rw [if_pos h]
  exact List.any_eq_true.mpr ⟨r, hr, by simp [hid]⟩

theorem log_trade_closed_missing_ticket_result (s : Store) (ticket : ℕ)
    (xp pf : ℚ) (reason : String) (cm sw : ℚ) (now : ℕ) :
    ((∀ r ∈ s.rows, r.ticket ≠ ticket) →
      log_trade_closed s ticket xp pf reason cm sw now = (s, false)) ∧
    (∀ tr, get_trade_by_ticket s ticket = some tr → tr.id ≠ 0 →
      (log_trade_closed s ticket xp pf reason cm sw now).2 = true) := by
  constructor
  · intro h
    have hnone : get_trade_by_ticket s ticket = none := by
      unfold get_trade_by_ticket
      rw [List.find?_eq_none]
      intro a ha
      simp [h a ha]
    unfold log_trade_closed
    rw [hnone]
  · intro tr htr hid
    have hmem : tr ∈ s.rows := List.mem_of_find?_eq_some htr
    unfold log_trade_closed
    rw [htr]
    exact update_trade_snd_true s _ hid tr hmem rfl

/-- C2 (witness): the amended theorem applied to the empty store. -/
theorem log_trade_closed_missing_ticket_result_witness :
    log_trade_closed { rows := [], nextId := 1 } 5 3 7 "manual" 0 0 99
      = ({ rows := [], nextId := 1 }, false) :=
  (log_trade_closed_missing_ticket_result { rows := [], nextId := 1 } 5 3 7 "manual" 0 0 99).1
    (by intro r hr; simp at hr)

/-! ### C8 — at most one opened row per ticket -/

/-- C8 (counterexample): the store enforces no ticket uniqueness — logging
the same opened ticket twice yields two opened rows with the same ticket. -/
theorem duplicate_opened_ticket_after_double_insert :
    (((log_trade_opened (log_trade_opened { rows := [], nextId := 1 }
        5 1 "bot" "Strat" "EURUSD" "buy" 1 1 none none 10).1
        5 1 "bot" "Strat" "EURUSD" "buy" 1 1 none none 11).1.rows.map
      fun r => (r.ticket, r.status)) = [(5, .opened), (5, .opened)]) ∧
    ¬ opened_unique (log_trade_opened (log_trade_opened { rows := [], nextId := 1 }
        5 1 "bot" "Strat" "EURUSD" "buy" 1 1 none none 10).1
        5 1 "bot" "Strat" "EURUSD" "buy" 1 1 none none 11).1 := by
  constructor
  · rfl
  · intro h
    unfold opened_unique at h
    have h2 := List.rel_of_pairwise_cons h (List.mem_cons_self _ _)
    exact h2 rfl rfl rfl

/-- C8 (amended): the at-most-one-opened-row-per-ticket invariant is not
enforced by the store; it is preserved by `save_trade` only under the
precondition that an inserted opened trade's ticket differs from every
opened row already present, and by `update_trade` when the update writes a
closed status (as every close-path update does). -/
theorem save_trade_preserves_opened_ticket_unique (s : Store) (t u : TradeRow)
    (h1 : opened_unique s)
    (h2 : t.status = .opened → ∀ r ∈ s.rows, r.status = .opened → r.ticket ≠ t.ticket)
    (hu : u.status = .closed) :
    opened_unique (save_trade s t).1 ∧ opened_unique (update_trade s u).1 := by
  constructor
  · unfold opened_unique save_trade
    rw [List.pairwise_append]
    refine ⟨h1, by simp, ?_⟩
    intro a ha b hb hao hbo
    simp only [List.mem_singleton] at hb
    subst hb
    simp only at hbo ⊢
    exact h2 hbo a ha hao
  · unfold update_trade
    by_cases hid : u.id ≠ 0
    · rw [if_pos hid]
      unfold opened_unique
      refine List.Pairwise.map _ ?_ h1
      intro a b hab hao hbo
      have ha' : (if a.id = u.id then overwrite_from u a else a) = a := by
        by_cases h : a.id = u.id
        · exfalso
          rw [if_pos h] at hao
          simp [overwrite_from, hu] at hao
        · rw [if_neg h]
      have hb' : (if b.id = u.id then overwrite_from u b else b) = b := by
        by_cases h : b.id = u.id
        · exfalso
          rw [if_pos h] at hbo
          simp [overwrite_from, hu] at hbo
        · rw [if_neg h]
      rw [ha'] at hao ⊢
      rw [hb'] at hbo ⊢
      exact hab hao hbo
    · rw [if_neg hid]
      by_cases htk : u.ticket ≠ 0
      · rw [if_pos htk]
        unfold opened_unique
        refine List.Pairwise.map _ ?_ h1
        intro a b hab hao hbo
        have ha' : (if a.ticket = u.ticket ∧ a.status = .opened
            then overwrite_from u a else a) = a := by
          by_cases h : a.ticket = u.ticket ∧ a.status = .opened
          · exfalso
            rw [if_pos h] at hao
            simp [overwrite_from, hu] at hao
          · rw [if_neg h]
        have hb' : (if b.ticket = u.ticket ∧ b.status = .opened
            then overwrite_from u b else b) = b := by
          by_cases h : b.ticket = u.ticket ∧ b.status = .opened
          · exfalso
            rw [if_pos h] at hbo
            simp [overwrite_from, hu] at hbo
          · rw [if_neg h]
        rw [ha'] at hao ⊢
        rw [hb'] at hbo ⊢
        exact hab hao hbo
      · rw [if_neg htk]
        exact h1

/-- C8 (witness): the amended theorem applied to the empty store, a fresh
opened trade, and a closed update. -/
theorem save_trade_preserves_opened_ticket_unique_witness :
    opened_unique (save_trade { rows := [], nextId := 1 }
      { base_row with ticket := 5 }).1 ∧
    opened_unique (update_trade { rows := [], nextId := 1 }
      { base_row with ticket := 5, status := .closed }).1 :=
  save_trade_preserves_opened_ticket_unique { rows := [], nextId := 1 }
    { base_row with ticket := 5 } { base_row with ticket := 5, status := .closed }
    (by unfold opened_unique; simp)
    (by intro _ r hr; simp at hr)
    rfl

/-! ### C6 — the global-pause flag -/

lemma check_global_pause_bots (s : CtrlState) :
    (check_global_pause s).bots = s.bots := by
  cases hap : all_paused_calc s.bots <;> cases hg : s.global_paused <;>
    simp [check_global_pause, hap, hg]

lemma check_global_pause_flag (s : CtrlState) :
    (check_global_pause s).global_paused = all_paused_calc s.bots := by
  unfold check_global_pause
  cases hap : all_paused_calc s.bots <;> cases hg : s.global_paused <;>
    simp [hap, hg]

lemma all_paused_calc_iff (bots : List (String × BotStatus)) :
    all_paused_calc bots = true ↔
      (bots ≠ [] ∧ ∀ b ∈ bots, b.2 ≠ BotStatus.stopped → b.2 = BotStatus.paused) := by
  unfold all_paused_calc
  rw [Bool.and_eq_true, List.all_eq_true]
  constructor
  · rintro ⟨hall, hlen⟩
    refine ⟨?_, ?_⟩
    · have : 0 < bots.length := by simpa using hlen
      exact List.ne_nil_of_length_pos this
    · intro b hb hbs
      have := hall b hb
      rw [if_neg hbs] at this
      simpa using this
  · rintro ⟨hne, hall⟩
    refine ⟨?_, ?_⟩
    · intro b hb
      by_cases hbs : b.2 = BotStatus.stopped
      · rw [if_pos hbs]
      · rw [if_neg hbs]
        simpa using hall b hb hbs
    · simpa using List.length_pos.mpr hne

lemma pause_claim_iff_of_check (s : CtrlState) :
    pause_claim_iff (check_global_pause s) := by
  unfold pause_claim_iff
  rw [check_global_pause_flag, check_global_pause_bots]
  exact all_paused_calc_iff s.bots

/-- C6 (counterexample): after add "A"; pause "A"; add "B" the flag is still
true (add_bot never recomputes it) although bot "B" is registered with
status `starting`, which is neither stopped nor paused — refuting the
claimed equivalence after every controller transition. -/
theorem global_pause_stale_after_add_bot :
    c6_state.global_paused = true ∧
    ("B", BotStatus.starting) ∈ c6_state.bots ∧
    ¬ pause_claim_iff c6_state := by
  refine ⟨rfl, by decide, ?_⟩
  unfold pause_claim_iff
  intro h
  have h2 := (h.mp rfl).2 ("B", BotStatus.starting) (by decide)
  simp at h2

/-- C6 (amended): the claimed equivalence — flag set iff at least one bot is
registered and every non-stopped bot is paused — holds after every
`pause_bot`, `resume_bot` and `stop_bot` call that performs its transition
(those paths end in `_check_global_pause`); the early-return paths, like
`add_bot` and `restart_bot`, leave the state (and possibly a stale flag)
unchanged. -/
theorem global_pause_after_pause_resume_stop (s : CtrlState) (id : String) :
    (pause_bot s id = s ∨ pause_claim_iff (pause_bot s id)) ∧
    (resume_bot s id = s ∨ pause_claim_iff (resume_bot s id)) ∧
    (stop_bot s id = s ∨ pause_claim_iff (stop_bot s id)) := by
  refine ⟨?_, ?_, ?_⟩
  · cases h : lookup_status s.bots id with
    | none => exact Or.inl (by simp [pause_bot, h])
    | some st =>
        by_cases hst : st = .paused
        · exact Or.inl (by simp [pause_bot, h, hst])
        · refine Or.inr ?_
          have hred : pause_bot s id
              = check_global_pause { s with bots := set_status s.bots id .paused } := by
            simp [pause_bot, h, hst]
          rw [hred]
          exact pause_claim_iff_of_check _
  · cases h : lookup_status s.bots id with
    | none => exact Or.inl (by simp [resume_bot, h])
    | some st =>
        by_cases hst : st = .paused
        · refine Or.inr ?_
          have hred : resume_bot s id
              = check_global_pause { s with bots := set_status s.bots id .running } := by
            simp [resume_bot, h, hst]
          rw [hred]
          exact pause_claim_iff_of_check _
        · exact Or.inl (by simp [resume_bot, h, hst])
  · cases h : lookup_status s.bots id with
    | none => exact Or.inl (by simp [stop_bot, h])
    | some st =>
        refine Or.inr ?_
        have hred : stop_bot s id
            = check_global_pause { s with bots := set_status s.bots id .stopped } := by
          simp [stop_bot, h]
        rw [hred]
        exact pause_claim_iff_of_check _

/-! ### C1 — signal_generated emission -/

lemma countP_signal_close_zero (inp : RunInputs) :
    (close_existing_trace inp).countP is_signal_event = 0 := by
  rw [List.countP_eq_zero]
  intro a ha
  rcases List.mem_filterMap.mp ha with ⟨p, _, hpa⟩
  by_cases h : p.2 && inp.hasLogger
  · rw [if_pos h] at hpa
    cases hpa
    simp [is_signal_event]
  · rw [if_neg h] at hpa
    cases hpa

/-- C1 (counterexample): an iteration whose strategy returns `hold` produces
an empty trace — `run_strategy` returns before the signal event is emitted,
so no `signal_generated` event is published, contradicting "exactly one per
iteration regardless of the signal's value (including hold)". -/
theorem run_strategy_hold_publishes_no_signal_event :
    c1_hold_inp.signal = "hold" ∧ c1_hold_inp.hasData = true ∧
    c1_hold_inp.globallyPaused = false ∧
    run_strategy_trace c1_hold_inp = [] ∧
    (run_strategy_trace c1_hold_inp).countP is_signal_event = 0 :=
  ⟨rfl, rfl, rfl, rfl, rfl⟩

/-- C1 (amended): when the iteration has data and the system is not globally
paused, exactly one `signal_generated` event is published iff the strategy
returned `buy` or `sell` — independent of the market re-check, position
policy and order outcome; for any other signal value (`hold` included) no
`signal_generated` event is published. -/
theorem signal_event_count_per_iteration (inp : RunInputs)
    (hd : inp.hasData = true) (hp : inp.globallyPaused = false) :
    ((inp.signal = "buy" ∨ inp.signal = "sell") →
      (run_strategy_trace inp).countP is_signal_event = 1) ∧
    ((inp.signal ≠ "buy" ∧ inp.signal ≠ "sell") →
      (run_strategy_trace inp).countP is_signal_event = 0) := by
  constructor
  · intro hs
    have hsig : (inp.signal == "buy" || inp.signal == "sell") = true := by
      rcases hs with h | h <;> simp [h]
    cases hm : inp.marketOpen <;> cases hc : inp.closeBeforeOpen <;>
      cases hsub : inp.submitOk <;> cases hlog : inp.hasLogger <;>
      simp [run_strategy_trace, hd, hsig, hp, hm, hc, hsub, hlog,
        List.countP_append, countP_signal_close_zero, is_signal_event,
        List.countP_cons, apply_ite (List.countP is_signal_event), ite_self]
  · intro h
    have hsig : (inp.signal == "buy" || inp.signal == "sell") = false := by
      simp [h.1, h.2]
    unfold run_strategy_trace
    rw [hd, hsig]
    simp

/-- C1 (witness): the amended theorem applied to a concrete buy iteration
with data and no global pause. -/
theorem signal_event_count_per_iteration_witness :
    (run_strategy_trace c1_buy_inp).countP is_signal_event = 1 :=
  (signal_event_count_per_iteration c1_buy_inp rfl rfl).1 (Or.inl rfl)

/-! ### C5 — trade row inserted before the trade_opened event -/

lemma ipo_nil : insert_precedes_open [] := by
  intro i t hit
  simp at hit

lemma ipo_of_no_open (tr : List TraceStep)
    (h : ∀ e ∈ tr, ∀ t, e ≠ TraceStep.openEvent t) : insert_precedes_open tr := by
  intro i t hit
  exact absurd rfl (h _ (List.getElem?_mem hit) t)

lemma ipo_pair (t : ℕ) :
    insert_precedes_open [TraceStep.openLogged t, TraceStep.openEvent t] := by
  intro i t' hit
  match i with
  | 0 => cases hit
  | 1 =>
      refine ⟨0, by omega, ?_⟩
      cases hit
      rfl
  | n + 2 => simp at hit

lemma ipo_append_left (L M : List TraceStep)
    (hL : ∀ e ∈ L, ∀ t, e ≠ TraceStep.openEvent t)
    (hM : insert_precedes_open M) : insert_precedes_open (L ++ M) := by
  intro i t hit
  by_cases hi : i < L.length
  · rw [List.getElem?_append_left hi] at hit
    exact absurd rfl (hL _ (List.getElem?_mem hit) t)
  · push_neg at hi
    rw [List.getElem?_append_right hi] at hit
    rcases hM _ t hit with ⟨j, hj, hjeq⟩
    refine ⟨L.length + j, by omega, ?_⟩
    rw [List.getElem?_append_right (by omega : L.length ≤ L.length + j)]
    simpa using hjeq

lemma close_existing_no_open (inp : RunInputs) :
    ∀ e ∈ close_existing_trace inp, ∀ t, e ≠ TraceStep.openEvent t := by
  intro e he t
  rcases List.mem_filterMap.mp he with ⟨p, _, hpa⟩
  by_cases h : p.2 && inp.hasLogger
  · rw [if_pos h] at hpa
    cases hpa
    simp
  · rw [if_neg h] at hpa
    cases hpa

lemma ipo_close_block (inp : RunInputs) (M : List TraceStep)
    (hM : insert_precedes_open M) :
    insert_precedes_open
      ((if 0 < inp.positions.length then close_existing_trace inp else []) ++ M) := by
  refine ipo_append_left _ _ ?_ hM
  intro e he t
  split at he
  · exact close_existing_no_open inp e he t
  · cases he

lemma mem_sig_block (inp : RunInputs) (e : TraceStep)
    (he : e ∈ (if inp.globallyPaused then ([] : List TraceStep)
      else [TraceStep.signalEvent inp.bot_id inp.strategy_name inp.symbol
        inp.signal inp.price])) :
    e = TraceStep.signalEvent inp.bot_id inp.strategy_name inp.symbol
      inp.signal inp.price ∧ inp.globallyPaused = false := by
  split at he
  · cases he
  · rcases List.mem_singleton.mp he with rfl
    exact ⟨rfl, by simpa using (by assumption : ¬ inp.globallyPaused = true)⟩

lemma mem_close_block (inp : RunInputs) (e : TraceStep)
    (he : e ∈ (if 0 < inp.positions.length then close_existing_trace inp
      else ([] : List TraceStep))) :
    ∃ t, e = TraceStep.closeLogged t := by
  split at he
  · rcases List.mem_filterMap.mp he with ⟨p, _, hpa⟩
    by_cases h : p.2 && inp.hasLogger
    · rw [if_pos h] at hpa
      cases hpa
      exact ⟨p.1, rfl⟩
    · rw [if_neg h] at hpa
      cases hpa
  · cases he

lemma mem_submit_block (inp : RunInputs) (e : TraceStep)
    (he : e ∈ (if inp.submitOk then
      (if inp.hasLogger then [TraceStep.openLogged inp.orderTicket] else [])
        ++ (if inp.globallyPaused then []
          else [TraceStep.openEvent inp.orderTicket])
      else ([] : List TraceStep))) :
    (e = TraceStep.openLogged inp.orderTicket ∧ inp.hasLogger = true) ∨
    (e = TraceStep.openEvent inp.orderTicket ∧ inp.globallyPaused = false) := by
  split at he
  · rcases List.mem_append.mp he with h | h
    · split at h
      · rcases List.mem_singleton.mp h with rfl
        exact Or.inl ⟨rfl, by assumption⟩
      · cases h
    · split at h
      · cases h
      · rcases List.mem_singleton.mp h with rfl
        exact Or.inr ⟨rfl, by simpa using (by assumption : ¬ inp.globallyPaused = true)⟩
  · cases he

/-- Every element of an iteration trace is a signal event (published only
outside a global pause), a close log entry, the opened-row insertion (only
with a logger), or the trade_opened event (only outside a global pause). -/
lemma mem_run_strategy_cases (inp : RunInputs) (e : TraceStep)
    (he : e ∈ run_strategy_trace inp) :
    (e = TraceStep.signalEvent inp.bot_id inp.strategy_name inp.symbol
        inp.signal inp.price ∧ inp.globallyPaused = false) ∨
    (∃ t, e = TraceStep.closeLogged t) ∨
    (e = TraceStep.openLogged inp.orderTicket ∧ inp.hasLogger = true) ∨
    (e = TraceStep.openEvent inp.orderTicket ∧ inp.globallyPaused = false) := by
  simp only [run_strategy_trace] at he
  split at he
  · cases he
  split at he
  · cases he
  split at he
  · exact Or.inl (mem_sig_block inp e he)
  split at he
  · rcases List.mem_append.mp he with h | h
    · rcases List.mem_append.mp h with h' | h'
      · exact Or.inl (mem_sig_block inp e h')
      · exact Or.inr (Or.inl (mem_close_block inp e h'))
    · rcases mem_submit_block inp e h with h' | h'
      · exact Or.inr (Or.inr (Or.inl h'))
      · exact Or.inr (Or.inr (Or.inr h'))
  split at he
  · exact Or.inl (mem_sig_block inp e he)
  · rcases List.mem_append.mp he with h | h
    · exact Or.inl (mem_sig_block inp e h)
    · rcases mem_submit_block inp e h with h' | h'
      · exact Or.inr (Or.inr (Or.inl h'))
      · exact Or.inr (Or.inr (Or.inr h'))

/-- C5: whenever a trade logger is configured (as it always is for the
directors the controller builds — `AppDirector.__init__` creates one and
passes it to every `SimpleTradingDirector`), every `trade_opened` event in
an iteration's trace is preceded by the insertion of a trade row with the
same ticket. -/
theorem trade_row_logged_before_trade_opened_event (inp : RunInputs)
    (hl : inp.hasLogger = true) :
    insert_precedes_open (run_strategy_trace inp) := by
  have hsig_one : ∀ t, (TraceStep.signalEvent inp.bot_id inp.strategy_name
      inp.symbol inp.signal inp.price) ≠ TraceStep.openEvent t := by
    intro t h
    cases h
  cases hd : inp.hasData
  case false =>
    have htr : run_strategy_trace inp = [] := by
      simp [run_strategy_trace, hd]
    rw [htr]
    exact ipo_nil
  case true =>
  by_cases hsg : (inp.signal == "buy" || inp.signal == "sell") = true
  case neg =>
    have htr : run_strategy_trace inp = [] := by
      unfold run_strategy_trace
      rw [hd]
      rw [if_neg (by simp), if_pos (by simpa using hsg)]
    rw [htr]
    exact ipo_nil
  case pos =>
  cases hgp : inp.globallyPaused
  case true =>
    -- while globally paused neither the signal event nor the trade_opened
    -- event is published, so the trace holds no openEvent at all
    refine ipo_of_no_open _ ?_
    intro e he t hne
    subst hne
    rcases mem_run_strategy_cases inp _ he with ⟨h, _⟩ | ⟨t', h⟩ | ⟨h, _⟩ | ⟨_, h⟩
    · cases h
    · cases h
    · cases h
    · rw [hgp] at h
      cases h
  case false =>
  cases hmo : inp.marketOpen
  case false =>
    have htr : run_strategy_trace inp
        = [TraceStep.signalEvent inp.bot_id inp.strategy_name inp.symbol
            inp.signal inp.price] := by
      unfold run_strategy_trace
      rw [hd, hsg, hgp, hmo]
      simp
    rw [htr]
    refine ipo_of_no_open _ ?_
    intro e he t
    rcases List.mem_singleton.mp he with rfl
    exact hsig_one t
  case true =>
  have hsubmit : insert_precedes_open
      (if inp.submitOk then
        (if inp.hasLogger then [TraceStep.openLogged inp.orderTicket] else [])
          ++ (if inp.globallyPaused then [] else [TraceStep.openEvent inp.orderTicket])
      else []) := by
    rw [hl, hgp]
    by_cases hsub : inp.submitOk = true
    · rw [if_pos hsub]
      simp only [if_true, Bool.false_eq_true, if_false]
      exact ipo_pair inp.orderTicket
    · rw [if_neg hsub]
      exact ipo_nil
  cases hc : inp.closeBeforeOpen
  case true =>
    have htr : run_strategy_trace inp
        = [TraceStep.signalEvent inp.bot_id inp.strategy_name inp.symbol
            inp.signal inp.price]
          ++ ((if 0 < inp.positions.length then close_existing_trace inp else [])
            ++ (if inp.submitOk then
              (if inp.hasLogger then [TraceStep.openLogged inp.orderTicket] else [])
                ++ (if inp.globallyPaused then []
                  else [TraceStep.openEvent inp.orderTicket])
              else [])) := by
      unfold run_strategy_trace
      rw [hd, hsg, hgp, hmo, hc]
      simp
    rw [htr]
    refine ipo_append_left _ _ ?_ (ipo_close_block inp _ hsubmit)
    intro e he t
    rcases List.mem_singleton.mp he with rfl
    exact hsig_one t
  case false =>
    by_cases hmax : inp.maxOpenPositions ≤ inp.positions.length
    · have htr : run_strategy_trace inp
          = [TraceStep.signalEvent inp.bot_id inp.strategy_name inp.symbol
              inp.signal inp.price] := by
        unfold run_strategy_trace
        rw [hd, hsg, hgp, hmo, hc]
        simp [hmax]
      rw [htr]
      refine ipo_of_no_open _ ?_
      intro e he t
      rcases List.mem_singleton.mp he with rfl
      exact hsig_one t
    · have htr : run_strategy_trace inp
          = [TraceStep.signalEvent inp.bot_id inp.strategy_name inp.symbol
              inp.signal inp.price]
            ++ (if inp.submitOk then
              (if inp.hasLogger then [TraceStep.openLogged inp.orderTicket] else [])
                ++ (if inp.globallyPaused then []
                  else [TraceStep.openEvent inp.orderTicket])
              else []) := by
        unfold run_strategy_trace
        rw [hd, hsg, hgp, hmo, hc]
        simp [hmax]
      rw [htr]
      refine ipo_append_left _ _ ?_ hsubmit
      intro e he t
      rcases List.mem_singleton.mp he with rfl
      exact hsig_one t

/-- C5 (witness): the theorem applied to a concrete close-before-open buy
iteration with a configured logger. -/
theorem trade_row_logged_before_trade_opened_event_witness :
    insert_precedes_open (run_strategy_trace c5_inp) :=
  trade_row_logged_before_trade_opened_event c5_inp rfl

/-! ### C3 — sync entry/exit selection and close-reason classification -/

lemma starts_with_chars_iff (pat : List Char) : ∀ l : List Char,
    (starts_with_chars l pat = true ↔ ∃ rest, l = pat ++ rest) := by
  induction pat with
  | nil =>
      intro l
      simp [starts_with_chars]
  | cons p ps ih =>
      intro l
      cases l with
      | nil =>
          simp [starts_with_chars]
      | cons c cs =>
          simp only [starts_with_chars, Bool.and_eq_true, beq_iff_eq, ih cs]
          constructor
          · rintro ⟨rfl, rest, rfl⟩
            exact ⟨rest, rfl⟩
          · rintro ⟨rest, h⟩
            injection h with h1 h2
            exact ⟨h1, rest, h2⟩

lemma contains_chars_iff (l pat : List Char) :
    contains_chars l pat = true ↔ ∃ pre post, l = pre ++ pat ++ post := by
  induction l with
  | nil =>
      simp only [contains_chars, starts_with_chars_iff]
      constructor
      · rintro ⟨rest, h⟩
        exact ⟨[], rest, by simpa using h⟩
      · rintro ⟨pre, post, h⟩
        rcases List.append_eq_nil.mp h.symm with ⟨h1, h2⟩
        rcases List.append_eq_nil.mp h1 with ⟨h3, h4⟩
        exact ⟨[], by simp [h4]⟩
  | cons c cs ih =>
      simp only [contains_chars, Bool.or_eq_true, starts_with_chars_iff, ih]
      constructor
      · rintro (⟨rest, h⟩ | ⟨pre, post, h⟩)
        · exact ⟨[], rest, by simpa using h⟩
        · exact ⟨c :: pre, post, by simp [h]⟩
      · rintro ⟨pre, post, h⟩
        cases pre with
        | nil => exact Or.inl ⟨post, by simpa using h⟩
        | cons x xs =>
            rw [List.cons_append, List.cons_append] at h
            injection h with h1 h2
            exact Or.inr ⟨xs, post, by simpa using h2⟩

lemma sort_deals_perm (deals : List Deal) :
    List.Perm (sort_deals_by_time deals) deals :=
  List.perm_insertionSort _ _

lemma sort_deals_sorted (deals : List Deal) :
    List.Sorted (fun a b : Deal => a.time ≤ b.time) (sort_deals_by_time deals) := by
  haveI : IsTotal Deal (fun a b : Deal => a.time ≤ b.time) :=
    ⟨fun a b => Nat.le_total _ _⟩
  haveI : IsTrans Deal (fun a b : Deal => a.time ≤ b.time) :=
    ⟨fun _ _ _ h h' => Nat.le_trans h h'⟩
  exact List.sorted_insertionSort _ _

lemma sorted_getLast?_max : ∀ l : List Deal,
    List.Sorted (fun a b : Deal => a.time ≤ b.time) l →
    ∀ x ∈ l, ∀ m, l.getLast? = some m → x.time ≤ m.time := by
  intro l
  induction l with
  | nil =>
      intro _ x hx
      cases hx
  | cons a t ih =>
      intro hs x hx m hm
      cases t with
      | nil =>
          rcases List.mem_singleton.mp hx with rfl
          have hxm : x = m := by simpa using hm
          rw [hxm]
      | cons b t' =>
          have hm' : (b :: t').getLast? = some m := by
            simpa [List.getLast?_cons_cons] using hm
          rcases List.mem_cons.mp hx with rfl | hx'
          · exact List.rel_of_sorted_cons hs m (List.mem_of_mem_getLast? hm')
          · exact ih hs.of_cons x hx' m hm'

lemma entry_of_min (deals : List Deal) (h : deals ≠ []) :
    ∃ e, entry_of deals = some e ∧ e ∈ deals ∧ ∀ d ∈ deals, e.time ≤ d.time := by
  have hperm := sort_deals_perm deals
  have hs := sort_deals_sorted deals
  obtain ⟨e, t, het⟩ : ∃ e t, sort_deals_by_time deals = e :: t := by
    cases hsd : sort_deals_by_time deals with
    | nil =>
        exfalso
        apply h
        rw [hsd] at hperm
        exact (List.Perm.symm hperm).eq_nil
    | cons e t => exact ⟨e, t, rfl⟩
  refine ⟨e, ?_, ?_, ?_⟩
  · unfold entry_of
    rw [het]
    rfl
  · exact hperm.mem_iff.mp (by rw [het]; exact List.mem_cons_self e t)
  · intro d hd
    have hd' : d ∈ e :: t := by
      rw [← het]
      exact hperm.mem_iff.mpr hd
    rcases List.mem_cons.mp hd' with rfl | hd''
    · exact Nat.le_refl _
    · exact List.rel_of_sorted_cons (het ▸ hs) d hd''

lemma exit_of_single (deals : List Deal) (h : deals.length = 1) :
    exit_of deals = none := by
  unfold exit_of
  rw [if_neg]
  rw [(sort_deals_perm deals).length_eq, h]
  omega

lemma exit_of_max (deals : List Deal) (h : 1 < deals.length) :
    ∃ x, exit_of deals = some x ∧ x ∈ deals ∧ ∀ d ∈ deals, d.time ≤ x.time := by
  have hlen := (sort_deals_perm deals).length_eq
  have h1 : 1 < (sort_deals_by_time deals).length := by omega
  obtain ⟨m, hm⟩ : ∃ m, (sort_deals_by_time deals).getLast? = some m := by
    cases hgl : (sort_deals_by_time deals).getLast? with
    | none =>
        exfalso
        rw [List.getLast?_eq_none_iff] at hgl
        rw [hgl] at h1
        simp at h1
    | some m => exact ⟨m, rfl⟩
  refine ⟨m, ?_, ?_, ?_⟩
  · unfold exit_of
    rw [if_pos h1, hm]
  · exact (sort_deals_perm deals).mem_iff.mp (List.mem_of_mem_getLast? hm)
  · intro d hd
    exact sorted_getLast?_max _ (sort_deals_sorted deals) d
      ((sort_deals_perm deals).mem_iff.mpr hd) m hm

/-- C3: for every non-empty deal group, the sync service's entry deal is a
deal of minimal time and, when the group has more than one deal, the exit
deal is a deal of maximal time (no exit deal for singleton groups); the
close reason stored when a trade is closed from an exit deal is `tp` when
the lowercased comment contains `[tp`, else `sl` when it contains `[sl`,
else `synced`. -/
theorem sync_entry_exit_selection_and_close_reason (deals : List Deal)
    (h : deals ≠ []) (c : String) :
    (∃ e, entry_of deals = some e ∧ e ∈ deals ∧ ∀ d ∈ deals, e.time ≤ d.time) ∧
    (deals.length = 1 → exit_of deals = none) ∧
    (1 < deals.length →
      ∃ x, exit_of deals = some x ∧ x ∈ deals ∧ ∀ d ∈ deals, d.time ≤ x.time) ∧
    ((∃ pre post, to_lower_str c = pre ++ "[tp".toList ++ post) →
      close_reason_from_comment c = "tp") ∧
    (¬ (∃ pre post, to_lower_str c = pre ++ "[tp".toList ++ post) →
      (∃ pre post, to_lower_str c = pre ++ "[sl".toList ++ post) →
      close_reason_from_comment c = "sl") ∧
    (¬ (∃ pre post, to_lower_str c = pre ++ "[tp".toList ++ post) →
      ¬ (∃ pre post, to_lower_str c = pre ++ "[sl".toList ++ post) →
      close_reason_from_comment c = "synced") ∧
    (∀ (tr : TradeRow) (ed : Deal),
      (closed_row_from_exit tr ed).close_reason
        = some (close_reason_from_comment ed.comment)) := by
  refine ⟨entry_of_min deals h, exit_of_single deals, exit_of_max deals,
    ?_, ?_, ?_, fun _ _ => rfl⟩
  · intro hex
    unfold close_reason_from_comment
    rw [if_pos ((contains_chars_iff _ _).mpr hex)]
  · intro hno hex
    unfold close_reason_from_comment
    rw [if_neg (fun hcon => hno ((contains_chars_iff _ _).mp hcon)),
      if_pos ((contains_chars_iff _ _).mpr hex)]
  · intro hno1 hno2
    unfold close_reason_from_comment
    rw [if_neg (fun hcon => hno1 ((contains_chars_iff _ _).mp hcon)),
      if_neg (fun hcon => hno2 ((contains_chars_iff _ _).mp hcon))]

/-- C3 (witness): the theorem applied to the two-deal group
`[c3_d1, c3_d2]` and to concrete broker comments of each kind. -/
theorem sync_entry_exit_selection_and_close_reason_witness :
    (∃ e, entry_of [c3_d1, c3_d2] = some e ∧ e ∈ [c3_d1, c3_d2]
      ∧ ∀ d ∈ [c3_d1, c3_d2], e.time ≤ d.time) ∧
    (∃ x, exit_of [c3_d1, c3_d2] = some x ∧ x ∈ [c3_d1, c3_d2]
      ∧ ∀ d ∈ [c3_d1, c3_d2], d.time ≤ x.time) ∧
    close_reason_from_comment "x [TP hit" = "tp" ∧
    close_reason_from_comment "y [SL 0.5" = "sl" ∧
    close_reason_from_comment "manual close" = "synced" :=
  ⟨(sync_entry_exit_selection_and_close_reason [c3_d1, c3_d2]
      (List.cons_ne_nil _ _) "").1,
   (sync_entry_exit_selection_and_close_reason [c3_d1, c3_d2]
      (List.cons_ne_nil _ _) "").2.2.1 (by decide),
   (sync_entry_exit_selection_and_close_reason [c3_d1, c3_d2]
      (List.cons_ne_nil _ _) "x [TP hit").2.2.2.1
      ⟨['x', ' '], " hit".toList, by decide⟩,
   (sync_entry_exit_selection_and_close_reason [c3_d1, c3_d2]
      (List.cons_ne_nil _ _) "y [SL 0.5").2.2.2.2.1
      (fun hex => absurd ((contains_chars_iff _ _).mpr hex) (by decide))
      ⟨"y ".toList, " 0.5".toList, by decide⟩,
   (sync_entry_exit_selection_and_close_reason [c3_d1, c3_d2]
      (List.cons_ne_nil _ _) "manual close").2.2.2.2.2.1
      (fun hex => absurd ((contains_chars_iff _ _).mpr hex) (by decide))
      (fun hex => absurd ((contains_chars_iff _ _).mpr hex) (by decide))⟩

/-! ### C7 — idempotence of the sync pass -/

lemma RowTransform_id : RowTransform id :=
  fun _ => ⟨rfl, rfl, Or.inl rfl⟩

lemma find?_ticket_map (l : List TradeRow) (f : TradeRow → TradeRow)
    (hf : ∀ r, (f r).ticket = r.ticket) (tk : ℕ) :
    (l.map f).find? (fun r => decide (r.ticket = tk))
      = (l.find? (fun r => decide (r.ticket = tk))).map f := by
  induction l with
  | nil => rfl
  | cons a t ih =>
      simp only [List.map_cons, List.find?_cons, hf a]
      cases hp : decide (a.ticket = tk) <;> simp [ih]

lemma update_trade_rows_shape (s : Store) (t : TradeRow) (ht : t.status = .closed) :
    ∃ f, RowTransform f ∧ ((update_trade s t).1).rows = s.rows.map f := by
  unfold update_trade
  by_cases h1 : t.id ≠ 0
  · rw [if_pos h1]
    refine ⟨fun r => if r.id = t.id then overwrite_from t r else r, ?_, rfl⟩
    intro r
    dsimp only
    by_cases h : r.id = t.id
    · rw [if_pos h]
      exact ⟨by simp [overwrite_from, h], rfl, Or.inr (by simp [overwrite_from, ht])⟩
    · rw [if_neg h]
      exact ⟨rfl, rfl, Or.inl rfl⟩
  · rw [if_neg h1]
    by_cases h2 : t.ticket ≠ 0
    · rw [if_pos h2]
      refine ⟨fun r => if r.ticket = t.ticket ∧ r.status = .opened
        then overwrite_from t r else r, ?_, rfl⟩
      intro r
      dsimp only
      by_cases h : r.ticket = t.ticket ∧ r.status = .opened
      · rw [if_pos h]
        exact ⟨rfl, by simp [overwrite_from, h.1], Or.inr (by simp [overwrite_from, ht])⟩
      · rw [if_neg h]
        exact ⟨rfl, rfl, Or.inl rfl⟩
    · rw [if_neg h2]
      exact ⟨id, RowTransform_id, by simp⟩

lemma process_position_shape (s : Store) (deals : List Deal) :
    (∃ f, RowTransform f ∧ ((process_position s deals).1).rows = s.rows.map f) ∨
    (∃ nr, ((process_position s deals).1).rows = s.rows ++ [nr]) := by
  unfold process_position
  by_cases hd : deals = []
  · rw [if_pos hd]
    exact Or.inl ⟨id, RowTransform_id, by simp⟩
  · rw [if_neg hd]
    cases he : entry_of deals with
    | none => exact Or.inl ⟨id, RowTransform_id, by simp⟩
    | some entry =>
        cases hg : get_trade_by_ticket s entry.order with
        | some tr =>
            cases hx : exit_of deals with
            | some ed =>
                by_cases hst : tr.status = .opened
                · simp only [hg, hx, if_pos hst]
                  exact Or.inl (update_trade_rows_shape s (closed_row_from_exit tr ed) rfl)
                · simp only [hg, hx, if_neg hst]
                  exact Or.inl ⟨id, RowTransform_id, by simp⟩
            | none =>
                simp only [hg, hx]
                exact Or.inl ⟨id, RowTransform_id, by simp⟩
        | none =>
            simp only [hg]
            exact Or.inr ⟨_, rfl⟩

lemma inertG_preserved (s : Store) (dg dh : List Deal) (hin : InertG s dg) :
    InertG ((process_position s dh).1) dg := by
  rcases hin with hnil | ⟨e, he, r, hr, hcond⟩
  · exact Or.inl hnil
  · right
    refine ⟨e, he, ?_⟩
    rcases process_position_shape s dh with ⟨f, hf, hrows⟩ | ⟨nr, hrows⟩
    · have hfetch : get_trade_by_ticket (process_position s dh).1 e.order = some (f r) := by
        unfold get_trade_by_ticket
        rw [hrows, find?_ticket_map _ f (fun r => (hf r).2.1)]
        unfold get_trade_by_ticket at hr
        rw [hr]
        rfl
      refine ⟨f r, hfetch, ?_⟩
      rcases hcond with hnot | ⟨hid0, htk0⟩
      · left
        rintro ⟨hopen, hexit⟩
        apply hnot
        rcases (hf r).2.2 with heq | hclosed
        · rw [heq] at hopen
          exact ⟨hopen, hexit⟩
        · rw [hclosed] at hopen
          cases hopen
      · exact Or.inr ⟨by rw [(hf r).1]; exact hid0, by rw [(hf r).2.1]; exact htk0⟩
    · have hfetch : get_trade_by_ticket (process_position s dh).1 e.order = some r := by
        unfold get_trade_by_ticket
        rw [hrows, List.find?_append]
        unfold get_trade_by_ticket at hr
        rw [hr]
        rfl
      exact ⟨r, hfetch, hcond⟩

lemma inertG_after_process (s : Store) (deals : List Deal) :
    InertG ((process_position s deals).1) deals := by
  by_cases hd : deals = []
  · exact Or.inl hd
  · right
    obtain ⟨e, he, _, _⟩ := entry_of_min deals hd
    refine ⟨e, he, ?_⟩
    cases hg : get_trade_by_ticket s e.order with
    | none =>
        have hstore : (process_position s deals).1
            = (create_trade_from_deals s e (exit_of deals)).1 := by
          unfold process_position
          rw [if_neg hd, he]
          simp only [hg]
        rw [hstore]
        unfold create_trade_from_deals save_trade
        have hfetch : get_trade_by_ticket
            { rows := s.rows ++ [{ trade_from_deals e (exit_of deals) with id := s.nextId }],
              nextId := s.nextId + 1 } e.order
            = some { trade_from_deals e (exit_of deals) with id := s.nextId } := by
          unfold get_trade_by_ticket
          rw [List.find?_append]
          unfold get_trade_by_ticket at hg
          rw [hg]
          simp [trade_from_deals]
        refine ⟨_, hfetch, Or.inl ?_⟩
        rintro ⟨hopen, hexit⟩
        cases hx : exit_of deals with
        | none => rw [hx] at hexit; cases hexit
        | some ed =>
            rw [hx] at hopen
            simp only [trade_from_deals, Option.isSome_some, if_true] at hopen
            cases hopen
    | some tr =>
        cases hx : exit_of deals with
        | none =>
            have hstore : (process_position s deals).1 = s := by
              unfold process_position
              rw [if_neg hd, he]
              simp only [hg, hx]
            rw [hstore]
            refine ⟨tr, hg, Or.inl ?_⟩
            rintro ⟨_, hexit⟩
            cases hexit
        | some ed =>
            by_cases hst : tr.status = .opened
            · have hstore : (process_position s deals).1
                  = (update_trade s (closed_row_from_exit tr ed)).1 := by
                unfold process_position
                rw [if_neg hd, he]
                simp only [hg, hx, if_pos hst]
                rfl
              rw [hstore]
              by_cases hid : tr.id ≠ 0
              · have hfetch : get_trade_by_ticket
                    (update_trade s (closed_row_from_exit tr ed)).1 e.order
                    = some (overwrite_from (closed_row_from_exit tr ed) tr) := by
                  unfold update_trade
                  rw [if_pos (show (closed_row_from_exit tr ed).id ≠ 0 from hid)]
                  unfold get_trade_by_ticket
                  show (s.rows.map fun r => if r.id = (closed_row_from_exit tr ed).id
                      then overwrite_from (closed_row_from_exit tr ed) r else r).find? _ = _
                  rw [find?_ticket_map _ _ (fun r => by
                    by_cases h : r.id = (closed_row_from_exit tr ed).id
                    · simp only [if_pos h]
                      rfl
                    · simp only [if_neg h])]
                  unfold get_trade_by_ticket at hg
                  rw [hg]
                  show some (if tr.id = (closed_row_from_exit tr ed).id
                      then overwrite_from (closed_row_from_exit tr ed) tr else tr) = _
                  rw [if_pos (show tr.id = (closed_row_from_exit tr ed).id from rfl)]
                refine ⟨_, hfetch, Or.inl ?_⟩
                rintro ⟨hopen, _⟩
                simp only [overwrite_from, closed_row_from_exit] at hopen
                cases hopen
              · by_cases htk : tr.ticket ≠ 0
                · have hfetch : get_trade_by_ticket
                      (update_trade s (closed_row_from_exit tr ed)).1 e.order
                      = some (overwrite_from (closed_row_from_exit tr ed) tr) := by
                    unfold update_trade
                    rw [if_neg (show ¬ (closed_row_from_exit tr ed).id ≠ 0 from hid),
                      if_pos (show (closed_row_from_exit tr ed).ticket ≠ 0 from htk)]
                    unfold get_trade_by_ticket
                    show (s.rows.map fun r =>
                        if r.ticket = (closed_row_from_exit tr ed).ticket ∧ r.status = .opened
                        then overwrite_from (closed_row_from_exit tr ed) r else r).find? _ = _
                    rw [find?_ticket_map _ _ (fun r => by
                      by_cases h : r.ticket = (closed_row_from_exit tr ed).ticket
                          ∧ r.status = .opened
                      · simp only [if_pos h]
                        exact h.1.symm ▸ rfl
                      · simp only [if_neg h])]
                    unfold get_trade_by_ticket at hg
                    rw [hg]
                    show some (if tr.ticket = (closed_row_from_exit tr ed).ticket
                        ∧ tr.status = .opened
                        then overwrite_from (closed_row_from_exit tr ed) tr else tr) = _
                    rw [if_pos (show tr.ticket = (closed_row_from_exit tr ed).ticket
                      ∧ tr.status = .opened from ⟨rfl, hst⟩)]
                  refine ⟨_, hfetch, Or.inl ?_⟩
                  rintro ⟨hopen, _⟩
                  simp only [overwrite_from, closed_row_from_exit] at hopen
                  cases hopen
                · have hstore2 : (update_trade s (closed_row_from_exit tr ed)).1 = s := by
                    unfold update_trade
                    rw [if_neg (show ¬ (closed_row_from_exit tr ed).id ≠ 0 from hid),
                      if_neg (show ¬ (closed_row_from_exit tr ed).ticket ≠ 0 from htk)]
                  rw [hstore2]
                  refine ⟨tr, hg, Or.inr ⟨?_, ?_⟩⟩
                  · simpa using hid
                  · simpa using htk
            · have hstore : (process_position s deals).1 = s := by
                unfold process_position
                rw [if_neg hd, he]
                simp only [hg, hx, if_neg hst]
              rw [hstore]
              refine ⟨tr, hg, Or.inl ?_⟩
              rintro ⟨hopen, _⟩
              exact hst hopen

lemma process_of_inertG (s : Store) (deals : List Deal) (hin : InertG s deals) :
    (process_position s deals).1 = s := by
  by_cases hd : deals = []
  · unfold process_position
    rw [if_pos hd]
  · rcases hin with hnil | ⟨e, he, r, hr, hcond⟩
    · exact absurd hnil hd
    · unfold process_position
      rw [if_neg hd, he]
      cases hx : exit_of deals with
      | none => simp only [hr]
      | some ed =>
          rcases hcond with hnot | ⟨hid0, htk0⟩
          · have hst : ¬ r.status = .opened := by
              intro ho
              exact hnot ⟨ho, by rw [hx]; rfl⟩
            simp only [hr, if_neg hst]
          · by_cases hst : r.status = .opened
            · simp only [hr, if_pos hst]
              show (update_trade s (closed_row_from_exit r ed)).1 = s
              unfold update_trade
              rw [if_neg (show ¬ (closed_row_from_exit r ed).id ≠ 0
                  from not_not_intro hid0),
                if_neg (show ¬ (closed_row_from_exit r ed).ticket ≠ 0
                  from not_not_intro htk0)]
            · simp only [hr, if_neg hst]

lemma inertG_sync_run (s : Store) (dg : List Deal) (gs : List (ℕ × List Deal))
    (hin : InertG s dg) : InertG (sync_run s gs) dg := by
  induction gs generalizing s with
  | nil => exact hin
  | cons g t ih => exact ih _ (inertG_preserved s dg g.2 hin)

lemma all_inert_after_sync_run (gs : List (ℕ × List Deal)) :
    ∀ s : Store, ∀ g ∈ gs, InertG (sync_run s gs) g.2 := by
  induction gs with
  | nil =>
      intro s g hg
      cases hg
  | cons h t ih =>
      intro s g hg
      rcases List.mem_cons.mp hg with rfl | hg'
      · exact inertG_sync_run _ _ t (inertG_after_process s g.2)
      · exact ih _ g hg'

lemma sync_run_of_all_inert (gs : List (ℕ × List Deal)) :
    ∀ s : Store, (∀ g ∈ gs, InertG s g.2) → sync_run s gs = s := by
  induction gs with
  | nil =>
      intro s _
      rfl
  | cons h t ih =>
      intro s hall
      have h0 : (process_position s h.2).1 = s :=
        process_of_inertG s h.2 (hall h (List.mem_cons_self h t))
      show sync_run (process_position s h.2).1 t = s
      rw [h0]
      exact ih s fun g hg => hall g (List.mem_cons_of_mem h hg)

/-- C7: one sync pass over a fixed broker history is idempotent — running
the grouped-deal processing a second time over the same deals leaves every
row of the trade store unchanged: after the first pass every group resolves
to a trade that is either not opened any more, or has no pending exit deal,
or can only be addressed by a no-op update. -/
theorem sync_run_idempotent (s : Store) (ds : List Deal) :
    sync_run (sync_run s (group_deals_by_position ds)) (group_deals_by_position ds)
      = sync_run s (group_deals_by_position ds) :=
  sync_run_of_all_inert (group_deals_by_position ds) _
    fun g hg => all_inert_after_sync_run (group_deals_by_position ds) s g hg
